import Mathlib

/-!
Verification development for the trial-grading review tool
(`src/lib/csv-parser.ts` and `src/components/trial-review-interface.tsx`).

The TypeScript sources are shallowly embedded below: JavaScript strings are
Lean `String`s (manipulated through their `List Char` data where the source
scans character by character), JavaScript `Array`s are Lean `List`s, plain
objects used as string-keyed maps are association lists in insertion order,
`Date.now` timestamps are `Nat`, and a thrown exception is `Option.none`.
-/

/-! ## Character-level string helpers (JS string primitives) -/

/-- Embeds JavaScript `String.prototype.split` with a one-character
separator: `"".split(sep) = [""]`, separators are not kept, and empty
pieces are preserved (`",".split(",") = ["", ""]`). -/
def splitOnChar (sep : Char) : List Char → List (List Char)
  | [] => [[]]
  | c :: rest =>
    match splitOnChar sep rest with
    | [] => [[]]
    | cur :: rs => if c = sep then [] :: cur :: rs else (c :: cur) :: rs

/-- Embeds JavaScript `.replace(/"/g, '')`: removes every double-quote
character. -/
def removeQuoteChars (l : List Char) : List Char :=
  l.filter (fun c => c != '"')

/-- Embeds JavaScript `String.prototype.trim`: drops whitespace from both
ends. -/
def trimChars (l : List Char) : List Char :=
  ((l.dropWhile Char.isWhitespace).reverse.dropWhile Char.isWhitespace).reverse

/-- One step of `normalizeText`'s `replace(/\s+/g, ' ')`: the flag records
whether the previous character was part of a whitespace run already emitted
as a single space. -/
def collapseWhitespaceAux : Bool → List Char → List Char
  | _, [] => []
  | prevWS, c :: rest =>
    if c.isWhitespace then
      if prevWS then collapseWhitespaceAux true rest
      else ' ' :: collapseWhitespaceAux true rest
    else c :: collapseWhitespaceAux false rest

/-- Embeds `replace(/\s+/g, ' ')`: every maximal whitespace run becomes a
single space. -/
def collapseWhitespace (l : List Char) : List Char :=
  collapseWhitespaceAux false l

/-- JavaScript `split` lifted to `String`. -/
def jsSplit (sep : Char) (s : String) : List String :=
  (splitOnChar sep s.data).map String.mk

/-- JavaScript `trim` lifted to `String`. -/
def jsTrim (s : String) : String :=
  String.mk (trimChars s.data)

/-- JavaScript `.replace(/"/g, '')` lifted to `String`. -/
def removeQuotes (s : String) : String :=
  String.mk (removeQuoteChars s.data)

/-- JavaScript `.toLowerCase()` lifted to `String` (ASCII letters; the
header names looked up are all ASCII). -/
def jsToLower (s : String) : String :=
  String.mk (s.data.map Char.toLower)

/-- Embeds the JS truthiness idiom `a || b` on strings: the empty string is
falsy. -/
def jsOrString (a b : String) : String :=
  if a == "" then b else a

/-- Embeds `normalizeText` from `trial-review-interface.tsx` (lines 75-77):
`(text ?? '').replace(/\s+/g, ' ').trim()`. All call sites modelled here
pass an actual string, so the null-coalescing is the identity. -/
def normalizeText (text : String) : String :=
  jsTrim (String.mk (collapseWhitespace text.data))

/-! ## Data model (`csv-parser.ts`) -/

/-- Embeds `TrialData` from `csv-parser.ts`. Optional TS string fields are plain
(possibly empty) strings, matching the parser, which fills every one of
them with a string; `model_reasoning` is the one field the parser can set
to `undefined`, hence `Option String`. -/
structure TrialData where
  question_text : String
  nct_id : String
  retrieval_score : String
  matching_terms : String
  trial_title : String
  brief_summary : String
  interventions : String
  trial_phase : String
  trial_age_range : String
  diseases_targeted : String
  inclusion_criteria : String
  exclusion_criteria : String
  prior_therapies : String
  gender : String
  model_grade : String
  model_reasoning : Option String
  judge_assessment : String
  judge_correct_grade : String
  judge_explanation : String
  patient_diseases_targeted : String
  patient_biomarkers : String
  patient_inclusion_criteria : String
  patient_exclusion_criteria : String
  patient_prior_therapies : String
  patient_disease_stage : String
  patient_line_of_therapy : String
  patient_age : String
  patient_age_unit : String
  patient_sex : String
  patient_trial_phase_preference : String
  human_grade : String
  deriving DecidableEq

/-- The `review_status` values admitted by `ReviewedTrialData` in
`csv-parser.ts` (lines 39-43). -/
inductive ReviewStatus where
  | approved
  | rejected
  | needs_review
  deriving DecidableEq

/-- Embeds `ReviewedTrialData` from `csv-parser.ts`: a `TrialData` plus review
fields; `reviewed_at : Date` is modelled as a `Nat` timestamp. -/
structure ReviewedTrialData extends TrialData where
  review_status : ReviewStatus
  comments : String
  reviewed_at : Nat
  deriving DecidableEq

/-! ## CSV parsing (`parseCSV`) -/

/-- The per-line field scan of `parseCSV` (lines 56-74): a double quote
toggles `inQuotes` (and is not accumulated), a comma outside quotes flushes
the current field through `replace(/"/g, '')`, and any other character is
appended to the current field. The final field is flushed at line end. -/
def scanFields : List Char → List Char → Bool → List String
  | [], current, _ => [String.mk (removeQuoteChars current)]
  | c :: rest, current, inQuotes =>
    if c = '"' then
      scanFields rest current (!inQuotes)
    else if c = ',' && !inQuotes then
      String.mk (removeQuoteChars current) :: scanFields rest [] false
    else
      scanFields rest (current ++ [c]) inQuotes

/-- The `norm` helper inside `parseCSV`: `s.toLowerCase().trim()`. -/
def normName (s : String) : String :=
  jsTrim (jsToLower s)

/-- The `indexOf` helper inside `parseCSV`: case-insensitive trimmed
header-name lookup, with the positional fallback when the name is absent.
`none` models the JS `-1`. -/
def indexOfHeader (headers : List String) (name : String)
    (fallbackIdx : Option Nat) : Option Nat :=
  match headers.findIdx? (fun h => normName h == normName name) with
  | some idx => some idx
  | none => fallbackIdx

/-- The `get` helper inside `parseCSV`: resolve the column, then
`fields[idx] || ''` (an out-of-range or empty field yields `""`). -/
def getField (headers fields : List String) (name : String)
    (fallbackIdx : Option Nat) : String :=
  match indexOfHeader headers name fallbackIdx with
  | some idx => fields.getD idx ""
  | none => ""

/-- The `TrialData` object literal built for each data row of the CSV
(`parseCSV` lines 87-125), with its header-name lookups, positional
fallbacks and alias chains. -/
def parseRow (headers : List String) (line : String) : TrialData :=
  let fields := scanFields line.data [] false
  let get := fun name fallbackIdx => getField headers fields name fallbackIdx
  let reasoningChain :=
    jsOrString (get "model_reasoning" none)
      (jsOrString (get "reasoning" none)
        (jsOrString (get "model_explanation" none)
          (jsOrString (get "llm_reasoning" none) (get "llm_explanation" none))))
  { question_text := get "question_text" (some 0)
    nct_id := get "nct_id" (some 1)
    retrieval_score := get "retrieval_score" none
    matching_terms := get "matching_terms" none
    trial_title := get "trial_title" (some 2)
    brief_summary := get "brief_summary" none
    interventions := get "interventions" none
    trial_phase := get "trial_phase" (some 3)
    trial_age_range := get "trial_age_range" (some 4)
    diseases_targeted := get "diseases_targeted" (some 5)
    inclusion_criteria := get "inclusion_criteria" (some 6)
    exclusion_criteria := get "exclusion_criteria" (some 7)
    prior_therapies := get "prior_therapies" (some 8)
    gender := get "gender" (some 9)
    model_grade := get "model_grade" (some 10)
    model_reasoning := if reasoningChain == "" then none else some reasoningChain
    judge_assessment := jsOrString (get "judge_assessment" none) (get "judge_accuracy" none)
    judge_correct_grade := get "judge_correct_grade" none
    judge_explanation := jsOrString (get "judge_explanation" none) (get "judge_comment" none)
    patient_diseases_targeted := get "patient_diseases_targeted" none
    patient_biomarkers := get "patient_biomarkers" none
    patient_inclusion_criteria := get "patient_inclusion_criteria" none
    patient_exclusion_criteria := get "patient_exclusion_criteria" none
    patient_prior_therapies := get "patient_prior_therapies" none
    patient_disease_stage := get "patient_disease_stage" none
    patient_line_of_therapy := get "patient_line_of_therapy" none
    patient_age := get "patient_age" none
    patient_age_unit := get "patient_age_unit" none
    patient_sex := get "patient_sex" none
    patient_trial_phase_preference := get "patient_trial_phase_preference" none
    human_grade := get "human_grade" (some 11) }

/-- Embeds `parseCSV` (lines 45-128). Lines are split on newlines and blank-ish
lines dropped; the header row is split on every comma (no quote awareness)
with quotes stripped; each remaining line is scanned into fields and mapped
to a `TrialData`. When the filtered line list is empty the source evaluates
`lines[0].split(',')` on `undefined` and throws a `TypeError`; the throw is
modelled as `none`. -/
def parseCSV (csvText : String) : Option (List TrialData) :=
  let lines := (jsSplit '\n' csvText).filter (fun line => jsTrim line != "")
  match lines with
  | [] => none
  | headerLine :: dataLines =>
    let headers := (jsSplit ',' headerLine).map removeQuotes
    some (dataLines.filterMap (fun l =>
      let line := jsTrim l
      if line == "" then none else some (parseRow headers line)))

/-! ## Case grouping (`groupTrialsByQuestion`) -/

/-- One step of `groupTrialsByQuestion`'s loop: `grouped[key]` is created
as `[]` on first sight and the trial is pushed onto it. JS object string
keys iterate in insertion order (none of the case-narrative keys are array
indices), so the map is an association list extended at first occurrence. -/
def insertGrouped (m : List (String × List TrialData)) (key : String)
    (t : TrialData) : List (String × List TrialData) :=
  match m with
  | [] => [(key, [t])]
  | (k, ts) :: rest =>
    if k = key then (k, ts ++ [t]) :: rest
    else (k, ts) :: insertGrouped rest key t

/-- Embeds `groupTrialsByQuestion` (lines 132-143): partitions the record sequence
by the raw `question_text` value of each trial. -/
def groupTrialsByQuestion (trials : List TrialData) : List (String × List TrialData) :=
  trials.foldl (fun m t => insertGrouped m t.question_text t) []

/-- Embeds `getUniqueQuestions` (lines 145-147): the distinct raw question texts in
first-occurrence order (`[...new Set(...)]` iterates insertion order). -/
def getUniqueQuestions (trials : List TrialData) : List String :=
  (trials.map TrialData.question_text).eraseDups

/-! ## Review reconciliation store (`trial-review-interface.tsx`) -/

/-- The `ReviewedTrialData` object literal built in `handleReview`
(lines 288-294): the current trial with `human_grade` overwritten,
`review_status` computed from grade agreement, comments and a submission
timestamp. -/
def mkReviewedTrial (t : TrialData) (humanGrade comments : String)
    (now : Nat) : ReviewedTrialData :=
  { { t with human_grade := humanGrade } with
    review_status :=
      if humanGrade == t.model_grade then ReviewStatus.approved
      else ReviewStatus.needs_review
    comments := comments
    reviewed_at := now }

/-- The store update inside `handleReview`'s `setReviewedTrials`
(lines 296-304): drop every entry with the same
(`nct_id`, whitespace-normalized `question_text`) identity, then append
the new entry. -/
def upsertReview (store : List ReviewedTrialData)
    (r : ReviewedTrialData) : List ReviewedTrialData :=
  (store.filter (fun rt =>
    !(rt.nct_id == r.nct_id &&
      normalizeText rt.question_text == normalizeText r.question_text))) ++ [r]

/-- The store update inside `undoReview`'s `setReviewedTrials`
(lines 320-327): drop every entry whose identity matches the current
trial's. -/
def removeReview (store : List ReviewedTrialData)
    (nctId questionText : String) : List ReviewedTrialData :=
  store.filter (fun rt =>
    !(rt.nct_id == nctId &&
      normalizeText rt.question_text == normalizeText questionText))

/-- A store-level submit or undo action, as the claims quantify over
operation sequences. `submit` carries the guard of `handleReview`
(lines 282-286): an empty human grade is rejected and leaves the store
unchanged. -/
inductive ReviewOp where
  | submit (trial : TrialData) (humanGrade comments : String) (now : Nat)
  | undo (trial : TrialData)

/-- Effect of one operation on the review store. -/
def applyOp (store : List ReviewedTrialData) : ReviewOp → List ReviewedTrialData
  | ReviewOp.submit t g c now =>
    if g = "" then store else upsertReview store (mkReviewedTrial t g c now)
  | ReviewOp.undo t => removeReview store t.nct_id t.question_text

/-- The review store built from an operation sequence, starting empty. -/
def applyOps (ops : List ReviewOp) : List ReviewedTrialData :=
  ops.foldl applyOp []

/-- Number of store entries with the given
(`nct_id`, normalized `question_text`) identity, written with the same
comparison `handleReview` and `undoReview` filter on. -/
def countIdentity (store : List ReviewedTrialData)
    (nctId qNorm : String) : Nat :=
  (store.filter (fun rt =>
    rt.nct_id == nctId && normalizeText rt.question_text == qNorm)).length

/-- The core store invariant: at most one entry per identity. -/
def atMostOnePerIdentity (store : List ReviewedTrialData) : Prop :=
  ∀ nctId qNorm, countIdentity store nctId qNorm ≤ 1

/-! ## Draft cache and component state -/

/-- A draft entry (`{ human_grade?, comments? }` in the `reviewDrafts`
blob). -/
structure DraftEntry where
  human_grade : Option String
  comments : Option String
  deriving DecidableEq

/-- Embeds `getDraftKey` (lines 79-81). -/
def getDraftKey (nctId question : String) : String :=
  nctId ++ "::" ++ normalizeText question

/-- Embeds `deleteDraft` (lines 103-114): removes the entry under the draft key;
the draft map is the parsed `reviewDrafts` blob as an association list. -/
def deleteDraft (drafts : List (String × DraftEntry))
    (nctId question : String) : List (String × DraftEntry) :=
  drafts.filter (fun kv => kv.1 != getDraftKey nctId question)

/-- The component state `handleReview` reads and writes: the review store,
the draft blob, the grouped trials with the selected case, the navigation
index and the two form fields. -/
structure ReviewState where
  reviewedTrials : List ReviewedTrialData
  drafts : List (String × DraftEntry)
  questionedTrials : List (String × List TrialData)
  selectedQuestion : String
  currentTrialIndex : Nat
  humanGrade : String
  reviewComments : String
  deriving DecidableEq

/-- Embeds `currentTrials` (line 157): `questionedTrials[selectedQuestion] || []`. -/
def currentTrials (st : ReviewState) : List TrialData :=
  (st.questionedTrials.lookup st.selectedQuestion).getD []

/-- Embeds `currentTrial` (line 158): `currentTrials[currentTrialIndex]`. -/
def currentTrial (st : ReviewState) : Option TrialData :=
  (currentTrials st).get? st.currentTrialIndex

/-- The validation message of `handleReview` (line 284). -/
def missingGradeMessage : String :=
  "Please provide a human grade before submitting."

/-- The completion message of `handleReview` (line 313). -/
def allReviewedMessage : String :=
  "All trials reviewed for this patient case!"

/-- Embeds `handleReview` (lines 282-315): reject with an alert when there is no
current trial or no chosen human grade; otherwise upsert the reviewed
trial, delete its draft, clear the form fields, and advance the index or
alert completion. The returned `Option String` is the `alert` call, if
any. -/
def handleReview (st : ReviewState) (now : Nat) : ReviewState × Option String :=
  match currentTrial st with
  | none => (st, some missingGradeMessage)
  | some t =>
    if st.humanGrade = "" then (st, some missingGradeMessage)
    else
      let reviewedTrial := mkReviewedTrial t st.humanGrade st.reviewComments now
      let newStore := upsertReview st.reviewedTrials reviewedTrial
      let newDrafts := deleteDraft st.drafts t.nct_id t.question_text
      let stepped :=
        if st.currentTrialIndex < (currentTrials st).length - 1 then
          (st.currentTrialIndex + 1, (none : Option String))
        else (st.currentTrialIndex, some allReviewedMessage)
      ({ st with
          reviewedTrials := newStore
          drafts := newDrafts
          humanGrade := ""
          reviewComments := ""
          currentTrialIndex := stepped.1 }, stepped.2)

/-- Embeds `undoReview` (lines 318-328): with no current trial it is a no-op;
otherwise the current trial's identity is filtered out of the store. -/
def undoReview (st : ReviewState) : ReviewState :=
  match currentTrial st with
  | none => st
  | some t =>
    { st with reviewedTrials := removeReview st.reviewedTrials t.nct_id t.question_text }

/-! ## Aggregate statistics (`exportToJSON`, lines 330-336) -/

/-- JavaScript number division of two counts, at the claims' level of
abstraction: `0 / 0` is `NaN`, modelled as `none`; a nonzero divisor gives
the exact rational quotient. -/
def jsDivCounts (a b : Nat) : Option ℚ :=
  if b = 0 then none else some ((a : ℚ) / (b : ℚ))

/-- The `agreement_rate` field of `exportToJSON`'s payload (line 335):
(count where `human_grade === model_grade`) divided by the total count. -/
def agreementRate (store : List ReviewedTrialData) : Option ℚ :=
  jsDivCounts
    (store.filter (fun t => t.human_grade == t.model_grade)).length
    store.length

/-! ## Concrete records used by witnesses and counterexamples -/

/-- A trial record with every parsed field empty. -/
def sampleTrial : TrialData :=
  { question_text := "", nct_id := "", retrieval_score := "", matching_terms := ""
    trial_title := "", brief_summary := "", interventions := "", trial_phase := ""
    trial_age_range := "", diseases_targeted := "", inclusion_criteria := ""
    exclusion_criteria := "", prior_therapies := "", gender := "", model_grade := ""
    model_reasoning := none, judge_assessment := "", judge_correct_grade := ""
    judge_explanation := "", patient_diseases_targeted := "", patient_biomarkers := ""
    patient_inclusion_criteria := "", patient_exclusion_criteria := ""
    patient_prior_therapies := "", patient_disease_stage := ""
    patient_line_of_therapy := "", patient_age := "", patient_age_unit := ""
    patient_sex := "", patient_trial_phase_preference := "", human_grade := "" }

/-- A record whose case text has a double-space whitespace run. -/
def trialWsDouble : TrialData :=
  { sampleTrial with question_text := "Patient X  is 50", nct_id := "NCT001" }

/-- The same case text with single spaces. -/
def trialWsSingle : TrialData :=
  { sampleTrial with question_text := "Patient X is 50", nct_id := "NCT002" }

/-- A finalized review whose human grade matches the model grade. -/
def sampleReviewAgree : ReviewedTrialData :=
  mkReviewedTrial { sampleTrial with model_grade := "A" } "A" "" 0

/-- A finalized review whose human grade differs from the model grade. -/
def sampleReviewDisagree : ReviewedTrialData :=
  mkReviewedTrial { sampleTrial with model_grade := "A" } "B" "" 0

/-- A component state with no chosen human grade. -/
def sampleState : ReviewState :=
  { reviewedTrials := [], drafts := [], questionedTrials := []
    selectedQuestion := "", currentTrialIndex := 0, humanGrade := ""
    reviewComments := "" }

/-! ## Helper lemmas on the split, trim and lower-casing primitives -/

theorem splitOnChar_cons (sep a : Char) (rest cur : List Char) (rs : List (List Char))
    (hr : splitOnChar sep rest = cur :: rs) :
    splitOnChar sep (a :: rest) = if a = sep then [] :: cur :: rs else (a :: cur) :: rs := by
  rw [splitOnChar, hr]

theorem splitOnChar_ne_nil (sep : Char) (l : List Char) : splitOnChar sep l ≠ [] := by
  cases l with
  | nil => simp [splitOnChar]
  | cons c rest =>
    rw [splitOnChar]
    cases splitOnChar sep rest with
    | nil => simp
    | cons cur rs =>
      by_cases h : c = sep <;> simp [h]

theorem mem_of_mem_splitOnChar {sep : Char} {l piece : List Char} {c : Char}
    (hp : piece ∈ splitOnChar sep l) (hc : c ∈ piece) : c ∈ l := by
  induction l generalizing piece with
  | nil =>
    simp [splitOnChar] at hp
    subst hp
    simp at hc
  | cons a rest ih =>
    cases hr : splitOnChar sep rest with
    | nil => exact absurd hr (splitOnChar_ne_nil sep rest)
    | cons cur rs =>
      rw [splitOnChar_cons sep a rest cur rs hr] at hp
      by_cases ha : a = sep
      · rw [if_pos ha] at hp
        rcases List.mem_cons.mp hp with hp | hp
        · subst hp; simp at hc
        · have : c ∈ rest := ih (hr ▸ hp) hc
          exact List.mem_cons_of_mem a this
      · rw [if_neg ha] at hp
        rcases List.mem_cons.mp hp with hp | hp
        · subst hp
          rcases List.mem_cons.mp hc with hc | hc
          · simp [hc]
          · have : c ∈ rest := ih (hr ▸ List.mem_cons_self cur rs) hc
            exact List.mem_cons_of_mem a this
        · have : c ∈ rest := ih (hr ▸ List.mem_cons_of_mem cur hp) hc
          exact List.mem_cons_of_mem a this

theorem sep_not_mem_splitOnChar {sep : Char} {l piece : List Char}
    (hp : piece ∈ splitOnChar sep l) : sep ∉ piece := by
  induction l generalizing piece with
  | nil =>
    simp [splitOnChar] at hp
    subst hp
    simp
  | cons a rest ih =>
    cases hr : splitOnChar sep rest with
    | nil => exact absurd hr (splitOnChar_ne_nil sep rest)
    | cons cur rs =>
      rw [splitOnChar_cons sep a rest cur rs hr] at hp
      by_cases ha : a = sep
      · rw [if_pos ha] at hp
        rcases List.mem_cons.mp hp with hp | hp
        · subst hp; simp
        · exact ih (hr ▸ hp)
      · rw [if_neg ha] at hp
        rcases List.mem_cons.mp hp with hp | hp
        · subst hp
          intro hmem
          rcases List.mem_cons.mp hmem with hmem | hmem
          · exact ha hmem.symm
          · exact ih (hr ▸ List.mem_cons_self cur rs) hmem
        · exact ih (hr ▸ List.mem_cons_of_mem cur hp)

theorem splitOnChar_length (sep : Char) (l : List Char) :
    (splitOnChar sep l).length = l.count sep + 1 := by
  induction l with
  | nil => simp [splitOnChar]
  | cons a rest ih =>
    cases hr : splitOnChar sep rest with
    | nil => exact absurd hr (splitOnChar_ne_nil sep rest)
    | cons cur rs =>
      rw [splitOnChar_cons sep a rest cur rs hr]
      rw [hr] at ih
      simp only [List.length_cons] at ih
      by_cases ha : a = sep
      · rw [if_pos ha, ha]
        simp only [List.length_cons, List.count_cons, beq_self_eq_true, if_true]
        omega
      · rw [if_neg ha]
        have hba : (a == sep) = false := by simp [ha]
        simp [List.count_cons, hba]
        omega

theorem mem_trimChars {l : List Char} {c : Char} (h : c ∈ trimChars l) : c ∈ l := by
  unfold trimChars at h
  rw [List.mem_reverse] at h
  have h1 := (List.dropWhile_sublist _).mem h
  rw [List.mem_reverse] at h1
  exact (List.dropWhile_sublist _).mem h1

theorem trimChars_eq_nil {l : List Char} (h : ∀ c ∈ l, c.isWhitespace) :
    trimChars l = [] := by
  unfold trimChars
  rw [List.dropWhile_eq_nil_iff.mpr h]
  simp

theorem toNat_ofNat_valid (n : Nat) (h : n.isValidChar) : (Char.ofNat n).toNat = n := by
  rw [Char.ofNat, dif_pos h]; rfl

theorem toLower_eq_comma {d : Char} (h : Char.toLower d = ',') : d = ',' := by
  simp only [Char.toLower] at h
  split at h
  · exfalso
    have hv : (Char.toNat d + 32).isValidChar := Or.inl (by omega)
    have h2 := congrArg Char.toNat h
    rw [toNat_ofNat_valid _ hv] at h2
    have h3 : (',' : Char).toNat = 44 := by decide
    omega
  · exact h

theorem comma_not_mem_normName {hd : String} (h : ',' ∉ hd.data) :
    ',' ∉ (normName hd).data := by
  intro hmem
  simp only [normName, jsTrim, jsToLower] at hmem
  have h1 := mem_trimChars hmem
  rw [List.mem_map] at h1
  obtain ⟨d, hd1, hd2⟩ := h1
  exact h (toLower_eq_comma hd2 ▸ hd1)

/-! ## Helper lemmas on the review store -/

theorem countIdentity_append (a b : List ReviewedTrialData) (n q : String) :
    countIdentity (a ++ b) n q = countIdentity a n q + countIdentity b n q := by
  simp [countIdentity]

theorem countIdentity_filter_le (store : List ReviewedTrialData)
    (p : ReviewedTrialData → Bool) (n q : String) :
    countIdentity (store.filter p) n q ≤ countIdentity store n q := by
  unfold countIdentity
  exact (List.Sublist.filter _ (List.filter_sublist store)).length_le

theorem countIdentity_upsert_self (store : List ReviewedTrialData)
    (r : ReviewedTrialData) :
    countIdentity (upsertReview store r) r.nct_id (normalizeText r.question_text) = 1 := by
  unfold upsertReview
  rw [countIdentity_append]
  have h1 : countIdentity
      (store.filter (fun rt =>
        !(rt.nct_id == r.nct_id &&
          normalizeText rt.question_text == normalizeText r.question_text)))
      r.nct_id (normalizeText r.question_text) = 0 := by
    unfold countIdentity
    rw [List.filter_filter]
    simp
  have h2 : countIdentity [r] r.nct_id (normalizeText r.question_text) = 1 := by
    simp [countIdentity]
  omega

theorem countIdentity_upsert_of_ne (store : List ReviewedTrialData)
    (r : ReviewedTrialData) (n q : String)
    (h : ¬(n = r.nct_id ∧ q = normalizeText r.question_text)) :
    countIdentity (upsertReview store r) n q ≤ countIdentity store n q := by
  unfold upsertReview
  rw [countIdentity_append]
  have h2 : countIdentity [r] n q = 0 := by
    simp only [countIdentity, List.filter, List.length_nil]
    have : (r.nct_id == n && normalizeText r.question_text == q) = false := by
      by_cases h1 : r.nct_id = n
      · by_cases h2 : normalizeText r.question_text = q
        · exact absurd ⟨h1.symm, h2.symm⟩ h
        · simp [h2]
      · simp [h1]
    rw [this]
    simp
  rw [h2]
  simpa using countIdentity_filter_le store _ n q

theorem atMostOne_upsert {store : List ReviewedTrialData}
    (h : atMostOnePerIdentity store) (r : ReviewedTrialData) :
    atMostOnePerIdentity (upsertReview store r) := by
  intro n q
  by_cases hid : n = r.nct_id ∧ q = normalizeText r.question_text
  · obtain ⟨h1, h2⟩ := hid
    subst h1; subst h2
    rw [countIdentity_upsert_self]
  · exact (countIdentity_upsert_of_ne store r n q hid).trans (h n q)

theorem atMostOne_applyOp {store : List ReviewedTrialData}
    (h : atMostOnePerIdentity store) (op : ReviewOp) :
    atMostOnePerIdentity (applyOp store op) := by
  cases op with
  | submit t g c now =>
    simp only [applyOp]
    by_cases hg : g = ""
    · simpa [hg] using h
    · rw [if_neg hg]
      exact atMostOne_upsert h _
  | undo t =>
    intro n q
    exact (countIdentity_filter_le store _ n q).trans (h n q)

theorem atMostOne_foldl (ops : List ReviewOp) :
    ∀ store, atMostOnePerIdentity store →
      atMostOnePerIdentity (ops.foldl applyOp store) := by
  induction ops with
  | nil => intro store h; exact h
  | cons op ops ih =>
    intro store h
    exact ih _ (atMostOne_applyOp h op)

theorem atMostOne_nil : atMostOnePerIdentity [] := by
  intro n q
  simp [countIdentity]

/-! ## Claim theorems -/

/-- Claim C1: over any sequence of submit and undo operations starting from
the empty review store, the store always has at most one `ReviewedRecord`
per (`nct_id`, whitespace-normalized `question_text`) identity, and right
after a submit with a chosen (non-empty) human grade the store contains
exactly one entry with the submitted record's identity. -/
theorem upsert_keeps_at_most_one_per_identity (ops : List ReviewOp) :
    atMostOnePerIdentity (applyOps ops) ∧
    ∀ (t : TrialData) (g c : String) (now : Nat), g ≠ "" →
      countIdentity (applyOps (ops ++ [ReviewOp.submit t g c now]))
        t.nct_id (normalizeText t.question_text) = 1 := by
  constructor
  · exact atMostOne_foldl ops [] atMostOne_nil
  · intro t g c now hg
    unfold applyOps
    rw [List.foldl_append]
    simp only [List.foldl_cons, List.foldl_nil]
    show countIdentity (applyOp (List.foldl applyOp [] ops) (ReviewOp.submit t g c now))
      t.nct_id (normalizeText t.question_text) = 1
    simp only [applyOp]
    rw [if_neg hg]
    have hn : (mkReviewedTrial t g c now).nct_id = t.nct_id := rfl
    have hq : (mkReviewedTrial t g c now).question_text = t.question_text := rfl
    rw [← hn, ← hq]
    exact countIdentity_upsert_self _ _

/-- Witness for C1: one submit of grade "B" for the sample trial leaves
exactly one entry with its identity, and the at-most-one invariant holds. -/
theorem upsert_keeps_at_most_one_per_identity_witness :
    ("B" : String) ≠ "" ∧
    countIdentity (applyOps [ReviewOp.submit sampleTrial "B" "" 0])
      sampleTrial.nct_id (normalizeText sampleTrial.question_text) = 1 :=
  ⟨by decide,
   (upsert_keeps_at_most_one_per_identity []).2 sampleTrial "B" "" 0 (by decide)⟩

/-- Claim C10: although the `ReviewedTrialData` type admits the
`review_status` value `rejected`, no sequence of submit and undo operations
ever produces it: every record in any reachable review store has status
`approved` or `needs_review`. -/
theorem rejected_status_unreachable (ops : List ReviewOp) :
    ∀ r ∈ applyOps ops,
      r.review_status = ReviewStatus.approved ∨
        r.review_status = ReviewStatus.needs_review := by
  have key : ∀ (ops : List ReviewOp) (store : List ReviewedTrialData),
      (∀ r ∈ store, r.review_status = ReviewStatus.approved ∨
        r.review_status = ReviewStatus.needs_review) →
      ∀ r ∈ ops.foldl applyOp store,
        r.review_status = ReviewStatus.approved ∨
          r.review_status = ReviewStatus.needs_review := by
    intro ops
    induction ops with
    | nil => intro store h; simpa using h
    | cons op rest ih =>
      intro store h
      refine ih _ ?_
      cases op with
      | submit t g c now =>
        simp only [applyOp]
        by_cases hg : g = ""
        · simpa [hg] using h
        · rw [if_neg hg]
          intro r hr
          simp only [upsertReview] at hr
          rcases List.mem_append.mp hr with hr | hr
          · exact h r (List.mem_of_mem_filter hr)
          · have hr2 : r = mkReviewedTrial t g c now := by simpa using hr
            subst hr2
            simp only [mkReviewedTrial]
            by_cases hm : (g == t.model_grade)
            · left; simp [hm]
            · right; simp [hm]
      | undo t =>
        intro r hr
        simp only [applyOp, removeReview] at hr
        exact h r (List.mem_of_mem_filter hr)
  exact key ops [] (by simp)

/-- Witness for C10: the record created by one submit is in the store and
has a status other than `rejected`. -/
theorem rejected_status_unreachable_witness :
    mkReviewedTrial sampleTrial "B" "" 0 ∈ applyOps [ReviewOp.submit sampleTrial "B" "" 0] ∧
    ((mkReviewedTrial sampleTrial "B" "" 0).review_status = ReviewStatus.approved ∨
      (mkReviewedTrial sampleTrial "B" "" 0).review_status = ReviewStatus.needs_review) :=
  ⟨by decide,
   rejected_status_unreachable [ReviewOp.submit sampleTrial "B" "" 0] _ (by decide)⟩

/-- Claim C5: the `review_status` stamped at submit time is `approved` iff
the chosen human grade string-equals the record's model grade, and
`needs_review` otherwise. -/
theorem review_status_iff_grade_agreement (t : TrialData) (g c : String) (now : Nat) :
    ((mkReviewedTrial t g c now).review_status = ReviewStatus.approved ↔
      g = t.model_grade) ∧
    ((mkReviewedTrial t g c now).review_status = ReviewStatus.needs_review ↔
      g ≠ t.model_grade) := by
  simp only [mkReviewedTrial]
  by_cases h : g = t.model_grade <;> simp [h]

/-- Claim C7: a submit attempt with an empty human grade is rejected with
the validation alert and leaves the whole component state — review store,
draft cache and navigation index included — unchanged. -/
theorem missing_grade_rejects_without_mutation (st : ReviewState) (now : Nat)
    (h : st.humanGrade = "") :
    handleReview st now = (st, some missingGradeMessage) := by
  unfold handleReview
  cases hc : currentTrial st with
  | none => rfl
  | some t => simp [h]

/-- Witness for C7: a state with no chosen grade is returned unchanged with
the validation message. -/
theorem missing_grade_rejects_without_mutation_witness :
    sampleState.humanGrade = "" ∧
    handleReview sampleState 0 = (sampleState, some missingGradeMessage) :=
  ⟨rfl, missing_grade_rejects_without_mutation sampleState 0 rfl⟩

/-- Claim C6: the agreement rate is the count of reviews whose human grade
string-equals their model grade divided by the total count; on the empty
store it is the `0 / 0` result `NaN` (embedded as `none`), not a clamped
number, and the spec's two-review scenario yields `0.5`. -/
theorem agreement_rate_formula (store : List ReviewedTrialData) :
    (store = [] → agreementRate store = none) ∧
    (store ≠ [] → agreementRate store =
      some (((store.filter (fun t => t.human_grade == t.model_grade)).length : ℚ) /
        (store.length : ℚ))) ∧
    ∀ r1 r2 : ReviewedTrialData, r1.human_grade = r1.model_grade →
      r2.human_grade ≠ r2.model_grade →
        agreementRate [r1, r2] = some (1 / 2) := by
  refine ⟨?_, ?_, ?_⟩
  · intro h; subst h; rfl
  · intro h
    unfold agreementRate jsDivCounts
    rw [if_neg (by simpa using h)]
  · intro r1 r2 h1 h2
    have e1 : (r1.human_grade == r1.model_grade) = true := by simp [h1]
    have e2 : (r2.human_grade == r2.model_grade) = false := by simp [h2]
    unfold agreementRate jsDivCounts
    simp [List.filter, e1, e2]

/-- Witness for C6: one agreeing and one disagreeing review give an
agreement rate of one half. -/
theorem agreement_rate_formula_witness :
    sampleReviewAgree.human_grade = sampleReviewAgree.model_grade ∧
    sampleReviewDisagree.human_grade ≠ sampleReviewDisagree.model_grade ∧
    agreementRate [sampleReviewAgree, sampleReviewDisagree] = some (1 / 2) :=
  ⟨by decide, by decide,
   (agreement_rate_formula []).2.2 sampleReviewAgree sampleReviewDisagree
     (by decide) (by decide)⟩

/-- Claim C3 counterexample: on the completely empty input the parser does
not return an empty sequence — the source evaluates
`lines[0].split(',')` with `lines = []` and throws a `TypeError`
(modelled as `none`). -/
theorem empty_input_throws_counterexample :
    parseCSV "" = none ∧ parseCSV "" ≠ some [] := by decide

/-- Claim C3 (amended): for every input string with no non-whitespace
characters, `parseCSV` fails (returns `none`, the embedded throw) instead
of returning an empty record sequence. -/
theorem empty_input_throws (s : String) (h : ∀ c ∈ s.data, c.isWhitespace) :
    parseCSV s = none := by
  have hlines : (jsSplit '\n' s).filter (fun line => jsTrim line != "") = [] := by
    rw [List.filter_eq_nil_iff]
    intro line hline
    simp only [jsSplit, List.mem_map] at hline
    obtain ⟨piece, hpiece, hline⟩ := hline
    subst hline
    have hall : ∀ c ∈ piece, c.isWhitespace := by
      intro c hc
      exact h c (mem_of_mem_splitOnChar hpiece hc)
    simp [jsTrim, trimChars_eq_nil hall]
  simp only [parseCSV]
  rw [hlines]

/-- Witness for the amended C3: a blank two-line input parses to `none`. -/
theorem empty_input_throws_witness :
    (∀ c ∈ (" \n ").data, c.isWhitespace) ∧ parseCSV " \n " = none :=
  ⟨by decide, empty_input_throws " \n " (by decide)⟩

theorem removeQuoteChars_eq_self {v : List Char} (hv : '"' ∉ v) :
    removeQuoteChars v = v := by
  apply List.filter_eq_self.mpr
  intro a ha
  exact bne_iff_ne.mpr (fun h => hv (h ▸ ha))

theorem scanFields_in_quotes :
    ∀ (v l cur : List Char), '"' ∉ v →
      scanFields (v ++ l) cur true = scanFields l (cur ++ v) true := by
  intro v
  induction v with
  | nil => intro l cur _; simp
  | cons c v ih =>
    intro l cur hv
    have hc : c ≠ '"' := fun h => hv (h ▸ List.mem_cons_self c v)
    have hv' : '"' ∉ v := fun h => hv (List.mem_cons_of_mem c h)
    have step : scanFields (c :: (v ++ l)) cur true
        = scanFields (v ++ l) (cur ++ [c]) true := by
      simp [scanFields, hc]
    simp only [List.cons_append, step, ih l (cur ++ [c]) hv', List.append_assoc]
    rfl

/-- Claim C4: a field value wrapped in double quotes parses as one field —
a comma while `inQuotes` is set does not end the field — and the quote
characters are stripped: scanning `"v",rest` yields `v` as the first field
followed by the fields of `rest`. -/
theorem quoted_comma_is_single_field (v rest : List Char) (hv : '"' ∉ v) :
    scanFields ('"' :: (v ++ '"' :: ',' :: rest)) [] false =
      String.mk v :: scanFields rest [] false := by
  have h1 : scanFields ('"' :: (v ++ '"' :: ',' :: rest)) [] false
      = scanFields (v ++ '"' :: ',' :: rest) [] true := by
    simp [scanFields]
  rw [h1, scanFields_in_quotes v _ _ hv]
  have h2 : scanFields ('"' :: ',' :: rest) ([] ++ v) true
      = scanFields (',' :: rest) v false := by
    simp [scanFields]
  rw [h2]
  have h3 : scanFields (',' :: rest) v false
      = String.mk (removeQuoteChars v) :: scanFields rest [] false := by
    simp [scanFields]
  rw [h3, removeQuoteChars_eq_self hv]

/-- Witness for C4: the row `"a, b",id1,title` parses into the three fields
`a, b`, `id1` and `title`, the embedded comma staying inside the first
field. -/
theorem quoted_comma_is_single_field_witness :
    ('"' ∉ "a, b".data) ∧
    scanFields ('"' :: ("a, b".data ++ '"' :: ',' :: "id1,title".data)) [] false =
      ["a, b", "id1", "title"] :=
  ⟨by decide, by
    rw [quoted_comma_is_single_field "a, b".data "id1,title".data (by decide)]
    decide⟩

/-- Claim C8: once the header row parses there is no failure path — any
input with at least one non-blank line parses to `some` list — and a field
whose resolved column index lies beyond the row's field count yields the
empty string. -/
theorem malformed_rows_never_fail (s : String) (headers fields : List String)
    (name : String) (fb : Option Nat) :
    ((jsSplit '\n' s).filter (fun line => jsTrim line != "") ≠ [] →
      (parseCSV s).isSome = true) ∧
    (∀ idx, indexOfHeader headers name fb = some idx → fields.length ≤ idx →
      getField headers fields name fb = "") := by
  constructor
  · intro h
    simp only [parseCSV]
    cases hl : (jsSplit '\n' s).filter (fun line => jsTrim line != "") with
    | nil => exact absurd hl h
    | cons a t => simp
  · intro idx hidx hlen
    unfold getField
    rw [hidx]
    exact List.getD_eq_default _ _ hlen

/-- Witness for C8: a one-row CSV parses to `some`, and looking up a mapped
column in a row with no fields yields the empty string. -/
theorem malformed_rows_never_fail_witness :
    (parseCSV "question_text,nct_id\nrow1").isSome = true ∧
    getField ["question_text"] [] "question_text" none = "" :=
  ⟨(malformed_rows_never_fail "question_text,nct_id\nrow1" [] [] "" none).1 (by decide),
   (malformed_rows_never_fail "" ["question_text"] [] "question_text" none).2 0
     (by decide) (by decide)⟩

/-- Claim C9: the header row is split on every comma with no quote
awareness — the number of header entries is always (number of commas on
the line) + 1 — so a header name that contains a comma can never match any
entry and its lookup degrades to the positional fallback (or, through
`getField`, to the empty string when there is none). -/
theorem header_split_not_quote_aware (headerLine name : String) (fb : Option Nat)
    (h : ',' ∈ (normName name).data) :
    ((jsSplit ',' headerLine).map removeQuotes).length
        = headerLine.data.count ',' + 1 ∧
    indexOfHeader ((jsSplit ',' headerLine).map removeQuotes) name fb = fb := by
  constructor
  · simp [jsSplit, splitOnChar_length]
  · unfold indexOfHeader
    have hnone : List.findIdx? (fun hd => normName hd == normName name)
        ((jsSplit ',' headerLine).map removeQuotes) = none := by
      rw [List.findIdx?_eq_none_iff]
      intro hd hmem
      simp only [jsSplit, List.map_map, List.mem_map, Function.comp] at hmem
      obtain ⟨piece, hpiece, hhd⟩ := hmem
      subst hhd
      rw [beq_eq_false_iff_ne]
      intro heq
      have hcomma : ',' ∈ (normName (removeQuotes (String.mk piece))).data := by
        rw [heq]; exact h
      have hnotin : ',' ∉ (removeQuotes (String.mk piece)).data := by
        intro hmem2
        exact sep_not_mem_splitOnChar hpiece (List.mem_of_mem_filter hmem2)
      exact comma_not_mem_normName hnotin hcomma
    rw [hnone]

/-- Witness for C9: the header row `"question, text",nct_id` splits into
three entries (both commas split, the quoted one included), and looking up
the name `question, text` falls back to the positional index 0. -/
theorem header_split_not_quote_aware_witness :
    (',' ∈ (normName "question, text").data) ∧
    ((jsSplit ',' "\"question, text\",nct_id").map removeQuotes).length
        = ("\"question, text\",nct_id").data.count ',' + 1 ∧
    indexOfHeader ((jsSplit ',' "\"question, text\",nct_id").map removeQuotes)
      "question, text" (some 0) = some 0 :=
  ⟨by decide, header_split_not_quote_aware "\"question, text\",nct_id"
    "question, text" (some 0) (by decide)⟩

theorem lookup_insertGrouped (m : List (String × List TrialData)) (key k : String)
    (t : TrialData) :
    (insertGrouped m key t).lookup k =
      if k = key then some (((m.lookup k).getD []) ++ [t]) else m.lookup k := by
  induction m with
  | nil =>
    by_cases h : k = key
    · have hb : (k == key) = true := beq_iff_eq.mpr h
      simp [insertGrouped, List.lookup, hb, h]
    · have hb : (k == key) = false := beq_eq_false_iff_ne.mpr h
      simp [insertGrouped, List.lookup, hb, h]
  | cons kv rest ih =>
    obtain ⟨k1, ts⟩ := kv
    by_cases h1 : k1 = key
    · subst h1
      have he : insertGrouped ((k1, ts) :: rest) k1 t = (k1, ts ++ [t]) :: rest := by
        simp [insertGrouped]
      rw [he]
      by_cases h2 : k = k1
      · have hb : (k == k1) = true := beq_iff_eq.mpr h2
        simp [List.lookup, hb, h2]
      · have hb : (k == k1) = false := beq_eq_false_iff_ne.mpr h2
        simp [List.lookup, hb, h2]
    · have hne : insertGrouped ((k1, ts) :: rest) key t
          = (k1, ts) :: insertGrouped rest key t := by
        simp [insertGrouped, h1]
      rw [hne]
      by_cases h2 : k = k1
      · have h3 : ¬(k = key) := by rw [h2]; exact fun hh => h1 hh
        have hb : (k == k1) = true := beq_iff_eq.mpr h2
        simp [List.lookup, hb, h3]
      · have hb : (k == k1) = false := beq_eq_false_iff_ne.mpr h2
        simp [List.lookup, hb, ih]

theorem lookup_groupFold (trials : List TrialData) :
    ∀ (m : List (String × List TrialData)) (key : String),
      (trials.foldl (fun mm t => insertGrouped mm t.question_text t) m).lookup key =
        match m.lookup key with
        | some l => some (l ++ trials.filter (fun t => t.question_text == key))
        | none =>
          if (trials.filter (fun t => t.question_text == key)).isEmpty then none
          else some (trials.filter (fun t => t.question_text == key)) := by
  induction trials with
  | nil =>
    intro m key
    simp only [List.foldl_nil]
    cases hm : List.lookup key m with
    | none => simp
    | some l => simp
  | cons t ts ih =>
    intro m key
    simp only [List.foldl_cons]
    rw [ih (insertGrouped m t.question_text t) key, lookup_insertGrouped]
    by_cases hk : key = t.question_text
    · have hbeq : (t.question_text == key) = true := beq_iff_eq.mpr hk.symm
      rw [if_pos hk]
      cases hm : List.lookup key m with
      | none => simp [List.filter_cons, hbeq]
      | some l => simp [List.filter_cons, hbeq]
    · have hbeq : (t.question_text == key) = false :=
        beq_eq_false_iff_ne.mpr (fun h => hk h.symm)
      rw [if_neg hk]
      cases hm : List.lookup key m with
      | none => simp [List.filter_cons, hbeq]
      | some l => simp [List.filter_cons, hbeq]

/-- Claim C2 (amended): `groupTrialsByQuestion` keys groups by the raw
(un-normalized) `question_text`: looking up any key returns exactly the
subsequence of records whose raw case text equals that key, in original
relative order, and records whose case texts differ only in whitespace run
length (same normalized text, different raw text) land in different
groups. -/
theorem grouping_uses_raw_key (trials : List TrialData) (key : String) :
    (groupTrialsByQuestion trials).lookup key =
      if (trials.filter (fun t => t.question_text == key)).isEmpty then none
      else some (trials.filter (fun t => t.question_text == key)) := by
  unfold groupTrialsByQuestion
  rw [lookup_groupFold trials [] key]
  rfl

/-- Claim C2 counterexample: the records for `"Patient X  is 50"` and
`"Patient X is 50"` have equal whitespace-normalized case text, yet the
grouping produces two groups, one per raw text — not the single group the
claim states. -/
theorem grouping_splits_on_whitespace :
    normalizeText trialWsDouble.question_text
      = normalizeText trialWsSingle.question_text ∧
    trialWsDouble.question_text ≠ trialWsSingle.question_text ∧
    (groupTrialsByQuestion [trialWsDouble, trialWsSingle]).length = 2 ∧
    (groupTrialsByQuestion [trialWsDouble, trialWsSingle]).lookup
      trialWsDouble.question_text = some [trialWsDouble] ∧
    (groupTrialsByQuestion [trialWsDouble, trialWsSingle]).lookup
      trialWsSingle.question_text = some [trialWsSingle] := by decide
